import Mathlib

/-!
Verification of the ODT (Optimal Delaunay Triangulation) smoothing module
`optimesh/odt.py` against its specification.

The Python module is shallowly embedded below over exact rational arithmetic:
node coordinates are pairs of rationals, a cell is an ordered triple of node
indices, numpy scatter-adds (`fastfunc.add.at`) become folds over index/value
pairs, the degree-2-exact `quadpy.triangle.Dunavant(2)` quadrature becomes the
(equally degree-2-exact) edge-midpoint rule, and the `assert` in `energy`
becomes an `Option` result (`none` models the fatal assertion failure).

External collaborators that the module imports but whose code is not part of
`src/` (the meshplex mesh engine, the `optimesh.helpers` iteration driver and
averaging helpers, and the scipy BFGS minimizer) are modelled from the
specification; each such definition carries a doc comment starting with
`Modelled from the spec:`.
-/

set_option linter.unusedVariables false

set_option allowUnsafeReducibility true in
attribute [semireducible] Rat.add Rat.mul Rat.inv Rat.sub Rat.div

abbrev Pt : Type := ℚ × ℚ

abbrev Cell : Type := Nat × Nat × Nat

structure Mesh where
  node_coords : List Pt
  cells : List Cell
deriving DecidableEq

/-! ### Basic planar geometry over ℚ -/

def psub (a b : Pt) : Pt := (a.1 - b.1, a.2 - b.2)

def pscale (t : ℚ) (a : Pt) : Pt := (t * a.1, t * a.2)

def pmid (a b : Pt) : Pt := ((a.1 + b.1) / 2, (a.2 + b.2) / 2)

def norm2 (a : Pt) : ℚ := a.1 * a.1 + a.2 * a.2

def cross2 (a b : Pt) : ℚ := a.1 * b.2 - a.2 * b.1

def nodeAt (coords : List Pt) (i : Nat) : Pt := coords.getD i (0, 0)

def cellAt (cells : List Cell) (j : Nat) : Cell := cells.getD j (0, 0, 0)

/-- Triangle area, `mesh.cell_volumes` of the mesh collaborator
(positive area of the triangle spanned by the three vertices). -/
def cellVolume (coords : List Pt) (c : Cell) : ℚ :=
  |cross2 (psub (nodeAt coords c.2.1) (nodeAt coords c.1))
      (psub (nodeAt coords c.2.2) (nodeAt coords c.1))| / 2

/-- Arithmetic mean of the three vertices, `mesh.cell_barycenters`. -/
def barycenter (coords : List Pt) (c : Cell) : Pt :=
  pscale (1 / 3) (nodeAt coords c.1 + nodeAt coords c.2.1 + nodeAt coords c.2.2)

/-- Center of the circle through the three vertices, `mesh.cell_circumcenters`
(junk value on degenerate triangles, which are a precondition violation). -/
def circumcenter (coords : List Pt) (c : Cell) : Pt :=
  let a := nodeAt coords c.1
  let b := nodeAt coords c.2.1
  let p := nodeAt coords c.2.2
  let d := 2 * (a.1 * (b.2 - p.2) + b.1 * (p.2 - a.2) + p.1 * (a.2 - b.2))
  ((norm2 a * (b.2 - p.2) + norm2 b * (p.2 - a.2) + norm2 p * (a.2 - b.2)) / d,
   (norm2 a * (p.1 - b.1) + norm2 b * (a.1 - p.1) + norm2 p * (b.1 - a.1)) / d)

/-! ### Edges, boundary detection, interior nodes

Modelled from the spec: the mesh collaborator's adjacency queries.  An edge is
an unordered pair of node indices (stored sorted); a boundary edge is an edge
incident to exactly one cell; a boundary cell has a boundary edge; an interior
node lies on no boundary edge. -/

def edgeKey (i j : Nat) : Nat × Nat := if i ≤ j then (i, j) else (j, i)

def cellEdges (c : Cell) : List (Nat × Nat) :=
  [edgeKey c.1 c.2.1, edgeKey c.2.1 c.2.2, edgeKey c.1 c.2.2]

def allEdges (cells : List Cell) : List (Nat × Nat) :=
  cells.flatMap cellEdges

/-- Number of cells incident to the edge `e` (counted with multiplicity). -/
def edgeCount (cells : List Cell) (e : Nat × Nat) : Nat :=
  (allEdges cells).count e

def boundaryEdges (cells : List Cell) : List (Nat × Nat) :=
  (allEdges cells).filter (fun e => edgeCount cells e == 1)

def is_boundary_cell (cells : List Cell) (c : Cell) : Bool :=
  (cellEdges c).any (fun e => edgeCount cells e == 1)

/-- Modelled from the spec: `mesh.is_interior_node` of the mesh collaborator —
a node is interior iff it lies on no boundary edge; the boolean mask selects
nodes in index order. -/
def is_interior_node (cells : List Cell) (i : Nat) : Bool :=
  !((boundaryEdges cells).any (fun e => e.1 == i || e.2 == i))

/-! ### Scatter-add (`fastfunc.add.at`) -/

/-- `fastfunc.add.at acc idx vals`: fold the index/value pairs into the
accumulator, adding each value at its index. -/
def scatterAdd {M : Type} [Add M] (f : Nat → M) (ps : List (Nat × M)) : Nat → M :=
  ps.foldl (fun g p => fun j => if j = p.1 then g j + p.2 else g j) f

/-- Total value scattered onto index `j` by the pair list. -/
def hitSum {M : Type} [AddMonoid M] (j : Nat) (ps : List (Nat × M)) : M :=
  ps.foldr (fun p acc => if p.1 = j then p.2 + acc else acc) 0

/-! ### The energy functional (`energy`, odt.py lines 28-70) -/

/-- Weight scattered per cell: the cell volume for `uniform_density`, else 1. -/
def cellWeight (m : Mesh) (ud : Bool) (c : Cell) : ℚ :=
  if ud then cellVolume m.node_coords c else 1

/-- One `fastfunc.add.at(star_volume, mesh.cells["nodes"][:, i], w)` pass. -/
def slotPairs (m : Mesh) (ud : Bool) (sel : Cell → Nat) : List (Nat × ℚ) :=
  m.cells.map (fun c => (sel c, cellWeight m ud c))

/-- `star_volume` accumulator of `energy`: three scatter-add passes, one per
node slot of the cell array. -/
def star_volume (m : Mesh) (ud : Bool) : Nat → ℚ :=
  scatterAdd
    (scatterAdd
      (scatterAdd (fun _ => 0) (slotPairs m ud (fun c => c.1)))
      (slotPairs m ud (fun c => c.2.1)))
    (slotPairs m ud (fun c => c.2.2))

/-- `x2 = einsum("ij,ij->i", node_coords, node_coords)`. -/
def x2 (m : Mesh) (i : Nat) : ℚ := norm2 (nodeAt m.node_coords i)

/-- `out = 1 / (dim + 1) * dot(star_volume, x2)`, with `dim = 2`. -/
def energy_out (m : Mesh) (ud : Bool) : ℚ :=
  1 / (2 + 1) *
    ((List.range m.node_coords.length).map (fun i => star_volume m ud i * x2 m i)).sum

/-- Integral of `‖x‖²` over one triangle, computed by the degree-2-exact
edge-midpoint quadrature rule (the source takes `quadpy.triangle.Dunavant(2)`,
any rule of order 2; the integrand is quadratic so both rules are exact and
agree). -/
def cellIntegral (coords : List Pt) (c : Cell) : ℚ :=
  cellVolume coords c *
    ((norm2 (pmid (nodeAt coords c.1) (nodeAt coords c.2.1)) +
      norm2 (pmid (nodeAt coords c.2.1) (nodeAt coords c.2.2)) +
      norm2 (pmid (nodeAt coords c.1) (nodeAt coords c.2.2))) / 3)

/-- `val`: the summed cell integrals, weighted by `rho = 1 / cell_volumes`
when the density is not uniform. -/
def energy_val (m : Mesh) (ud : Bool) : ℚ :=
  if ud then (m.cells.map (fun c => cellIntegral m.node_coords c)).sum
  else (m.cells.map (fun c => cellIntegral m.node_coords c * (1 / cellVolume m.node_coords c))).sum

/-- `energy(mesh, uniform_density=False)`: the `assert out >= val` is modelled
by returning `none` (fatal assertion failure) when the bound is violated. -/
def energy (m : Mesh) (uniform_density : Bool := false) : Option ℚ :=
  if energy_val m uniform_density ≤ energy_out m uniform_density then
    some (energy_out m uniform_density - energy_val m uniform_density)
  else none

/-- Validity of an input triangulation (spec §3 invariants): node indices in
range, the three indices of a cell distinct, cell volumes strictly positive. -/
def ValidMesh (m : Mesh) : Prop :=
  ∀ c ∈ m.cells,
    c.1 < m.node_coords.length ∧ c.2.1 < m.node_coords.length ∧
    c.2.2 < m.node_coords.length ∧
    c.1 ≠ c.2.1 ∧ c.1 ≠ c.2.2 ∧ c.2.1 ≠ c.2.2 ∧
    0 < cellVolume m.node_coords c

instance (m : Mesh) : Decidable (ValidMesh m) := by
  unfold ValidMesh; infer_instance

/-! ### Spec-side formulation of the energy (claim C1)

These definitions follow the wording of the specification (per-node closed
sums instead of the source's sequential scatter-adds) and are proved equal to
the source embedding above. -/

/-- Spec wording: per node `i`, the scatter-added star volume is the sum over
cells and node slots of the density weight wherever the slot hits `i`. -/
def star_volume_spec (m : Mesh) (ud : Bool) (i : Nat) : ℚ :=
  (m.cells.map (fun c =>
    (if c.1 = i then cellWeight m ud c else 0) +
    (if c.2.1 = i then cellWeight m ud c else 0) +
    (if c.2.2 = i then cellWeight m ud c else 0))).sum

/-- Spec wording: `S = 1/(d+1) · Σ_i star_volume[i] · ‖coords[i]‖²`, `d = 2`. -/
def energy_star_term_spec (m : Mesh) (ud : Bool) : ℚ :=
  1 / (2 + 1) *
    ((List.range m.node_coords.length).map
      (fun i => star_volume_spec m ud i * x2 m i)).sum

/-- Spec wording: `I` is the sum over cells of a degree-2-exact quadrature of
`‖x‖²` over the triangle, each cell's integral weighted by `1/volume(cell)`
when `uniform_density` is false. -/
def energy_integral_term_spec (m : Mesh) (ud : Bool) : ℚ :=
  if ud then (m.cells.map (fun c => cellIntegral m.node_coords c)).sum
  else (m.cells.map
    (fun c => cellIntegral m.node_coords c / cellVolume m.node_coords c)).sum

/-! ### Concrete meshes used by the witnesses -/

/-- Unit-square-like mesh: four boundary corners, one interior center node,
four triangles; strictly Delaunay. -/
def sqX : List Pt := [(0, 0), (2, 0), (2, 2), (0, 2), (1, 1)]

def sqC : List Cell := [(0, 1, 4), (1, 2, 4), (2, 3, 4), (3, 0, 4)]

def sqMesh : Mesh := ⟨sqX, sqC⟩

/-! ### Scatter-add lemmas -/

theorem hitSum_cons {M : Type} [AddMonoid M] (j : Nat) (p : Nat × M)
    (ps : List (Nat × M)) :
    hitSum j (p :: ps) = if p.1 = j then p.2 + hitSum j ps else hitSum j ps := rfl

theorem scatterAdd_cons {M : Type} [Add M] (f : Nat → M) (p : Nat × M)
    (ps : List (Nat × M)) :
    scatterAdd f (p :: ps) =
      scatterAdd (fun j => if j = p.1 then f j + p.2 else f j) ps := rfl

theorem scatterAdd_apply {M : Type} [AddMonoid M] (f : Nat → M)
    (ps : List (Nat × M)) (j : Nat) :
    scatterAdd f ps j = f j + hitSum j ps := by
  induction ps generalizing f with
  | nil => simp [scatterAdd, hitSum]
  | cons p ps ih =>
      rw [scatterAdd_cons, ih, hitSum_cons]
      by_cases h : p.1 = j
      · subst h; simp [add_assoc]
      · have h2 : ¬ j = p.1 := fun hh => h hh.symm
        simp [h, h2]

theorem hitSum_map {α M : Type} [AddMonoid M] (l : List α) (sel : α → Nat)
    (w : α → M) (j : Nat) :
    hitSum j (l.map (fun c => (sel c, w c))) =
      (l.map (fun c => if sel c = j then w c else 0)).sum := by
  induction l with
  | nil => simp [hitSum]
  | cons c l ih =>
      rw [List.map_cons, hitSum_cons, List.map_cons, List.sum_cons, ih]
      by_cases h : sel c = j <;> simp [h]

theorem sum_map_add {α M : Type} [AddCommMonoid M] (l : List α) (f g : α → M) :
    (l.map (fun a => f a + g a)).sum = (l.map f).sum + (l.map g).sum := by
  induction l with
  | nil => simp
  | cons a l ih =>
      rw [List.map_cons, List.sum_cons, List.map_cons, List.sum_cons,
          List.map_cons, List.sum_cons, ih]
      exact add_add_add_comm _ _ _ _

theorem map_congr_on {α β : Type} (l : List α) (f g : α → β)
    (h : ∀ a ∈ l, f a = g a) : l.map f = l.map g := by
  induction l with
  | nil => rfl
  | cons a l ih =>
      have h1 := h a (List.mem_cons_self a l)
      have h2 := ih (fun b hb => h b (List.mem_cons_of_mem a hb))
      rw [List.map_cons, List.map_cons, h1, h2]

theorem star_volume_eq (m : Mesh) (ud : Bool) (i : Nat) :
    star_volume m ud i = star_volume_spec m ud i := by
  unfold star_volume star_volume_spec slotPairs
  rw [scatterAdd_apply, scatterAdd_apply, scatterAdd_apply,
      hitSum_map, hitSum_map, hitSum_map,
      sum_map_add m.cells
        (fun c => (if c.1 = i then cellWeight m ud c else 0) +
          (if c.2.1 = i then cellWeight m ud c else 0))
        (fun c => if c.2.2 = i then cellWeight m ud c else 0),
      sum_map_add m.cells
        (fun c => if c.1 = i then cellWeight m ud c else 0)
        (fun c => if c.2.1 = i then cellWeight m ud c else 0),
      zero_add]

theorem energy_out_eq (m : Mesh) (ud : Bool) :
    energy_out m ud = energy_star_term_spec m ud := by
  unfold energy_out energy_star_term_spec
  rw [map_congr_on (List.range m.node_coords.length)
        (fun i => star_volume m ud i * x2 m i)
        (fun i => star_volume_spec m ud i * x2 m i)
        (fun i _ => by simp only [star_volume_eq])]

theorem energy_val_eq (m : Mesh) (ud : Bool) :
    energy_val m ud = energy_integral_term_spec m ud := by
  cases ud with
  | true => rfl
  | false =>
      show (energy_val m false) = _
      unfold energy_val energy_integral_term_spec
      simp only [Bool.false_eq_true, if_false]
      rw [map_congr_on m.cells
            (fun c => cellIntegral m.node_coords c * (1 / cellVolume m.node_coords c))
            (fun c => cellIntegral m.node_coords c / cellVolume m.node_coords c)
            (fun c _ => mul_one_div _ _)]

/-- C1: for a valid 2D triangle mesh and either density mode, whenever the
convexity assertion passes, `energy(mesh, uniform_density)` returns `S - I`:
`S` is `1/(d+1)` times the sum over nodes of `star_volume[i]·‖coords[i]‖²`,
the star volumes being scatter-added per node slot of every cell (the cell's
volume when `uniform_density`, else 1), and `I` is the sum over cells of a
degree-2-exact quadrature of `‖x‖²`, each integral weighted by
`1/volume(cell)` when `uniform_density` is false. -/
theorem odt_c1_energy_formula (m : Mesh) (ud : Bool) (hv : ValidMesh m)
    (h : energy_integral_term_spec m ud ≤ energy_star_term_spec m ud) :
    energy m ud =
      some (energy_star_term_spec m ud - energy_integral_term_spec m ud) := by
  unfold energy
  rw [energy_out_eq, energy_val_eq, if_pos h]

/-- Witness for C1 at the concrete square mesh. -/
theorem odt_c1_energy_formula_witness :
    ValidMesh sqMesh ∧
    energy_integral_term_spec sqMesh false ≤ energy_star_term_spec sqMesh false ∧
    energy sqMesh false =
      some (energy_star_term_spec sqMesh false - energy_integral_term_spec sqMesh false) :=
  ⟨by decide, by decide, odt_c1_energy_formula sqMesh false (by decide) (by decide)⟩

/-- C2: `energy` asserts `out ≥ val` before returning their difference, so any
result it returns without the fatal assertion failure is non-negative (the
violated bound is modelled by the `none` result, not a recoverable value). -/
theorem odt_c2_energy_nonneg (m : Mesh) (ud : Bool) (r : ℚ)
    (h : energy m ud = some r) : 0 ≤ r := by
  unfold energy at h
  by_cases hc : energy_val m ud ≤ energy_out m ud
  · rw [if_pos hc] at h
    have h2 := Option.some.inj h
    rw [← h2]
    exact sub_nonneg.mpr hc
  · rw [if_neg hc] at h
    exact absurd h (by simp)

/-- Witness for C2 at the concrete square mesh. -/
theorem odt_c2_energy_nonneg_witness :
    energy sqMesh false = some (energy_out sqMesh false - energy_val sqMesh false) ∧
    0 ≤ energy_out sqMesh false - energy_val sqMesh false :=
  ⟨by decide, odt_c2_energy_nonneg sqMesh false _ (by decide)⟩

/-! ### Masked interior-coordinate writes
(`mesh.node_coords[mesh.is_interior_node] = x.reshape(-1, 2)`) -/

def writeInteriorAux (isInt : Nat → Bool) : Nat → List Pt → List Pt → List Pt
  | _, [], _ => []
  | k, p :: ps, xs =>
    if isInt k then
      match xs with
      | [] => p :: writeInteriorAux isInt (k + 1) ps []
      | x :: xs2 => x :: writeInteriorAux isInt (k + 1) ps xs2
    else p :: writeInteriorAux isInt (k + 1) ps xs

def writeInterior (cells : List Cell) (coords : List Pt) (xs : List Pt) : List Pt :=
  writeInteriorAux (is_interior_node cells) 0 coords xs

/-- Boolean-mask row selection `X[mask]`. -/
def intVals (isInt : Nat → Bool) : Nat → List Pt → List Pt
  | _, [] => []
  | k, p :: ps =>
    if isInt k then p :: intVals isInt (k + 1) ps else intVals isInt (k + 1) ps

/-- `.flatten()` of an `(n, 2)` coordinate array. -/
def flattenPts (l : List Pt) : List ℚ := l.foldr (fun p acc => p.1 :: p.2 :: acc) []

/-- `.reshape(-1, 2)` of a flat parameter vector. -/
def unflatten : List ℚ → List Pt
  | x :: y :: rest => (x, y) :: unflatten rest
  | _ => []

def interiorNodes (cells : List Cell) (n : Nat) : List Nat :=
  (List.range n).filter (fun i => is_interior_node cells i)

/-! ### The analytic gradient (`jac`, odt.py lines 168-180) -/

/-- One `fastfunc.add.at(grad, mcn, ((coords[mcn] - cc).T * cell_volumes).T)`
pass for one column `mcn` of `mesh.cells["nodes"].T`. -/
def gradPairs (coords : List Pt) (cells : List Cell) (sel : Cell → Nat) :
    List (Nat × Pt) :=
  cells.map (fun c =>
    (sel c, pscale (cellVolume coords c)
      (psub (nodeAt coords (sel c)) (circumcenter coords c))))

def jacGradRaw (coords : List Pt) (cells : List Cell) : Nat → Pt :=
  scatterAdd
    (scatterAdd
      (scatterAdd (fun _ => (0 : Pt)) (gradPairs coords cells (fun c => c.1)))
      (gradPairs coords cells (fun c => c.2.1)))
    (gradPairs coords cells (fun c => c.2.2))

/-- `jac(x)`: write `x` into the interior-node coordinates, recompute
geometry, scatter-add `(node_coord - cell_circumcenter) * cell_volume` into
each of the cell's 3 node slots, scale by `2/(gdim+1)` with `gdim = 2`, and
return the interior rows (mask order) flattened. -/
def jac (X : List Pt) (cells : List Cell) (x : List ℚ) : List ℚ :=
  let coords := writeInterior cells X (unflatten x)
  flattenPts ((interiorNodes cells coords.length).map
    (fun i => pscale (2 / (2 + 1)) (jacGradRaw coords cells i)))

/-- Spec wording of the gradient (claim C3): per node `i`, the sum over cells
of `(node_coord_i - circumcenter) * volume`, one contribution per node slot
hitting `i`, scaled by `2/(d+1)` with `d = 2`. -/
def jacGradSpec (coords : List Pt) (cells : List Cell) (i : Nat) : Pt :=
  pscale (2 / (2 + 1))
    ((cells.map (fun c =>
      (if c.1 = i then
        pscale (cellVolume coords c) (psub (nodeAt coords i) (circumcenter coords c))
       else 0) +
      (if c.2.1 = i then
        pscale (cellVolume coords c) (psub (nodeAt coords i) (circumcenter coords c))
       else 0) +
      (if c.2.2 = i then
        pscale (cellVolume coords c) (psub (nodeAt coords i) (circumcenter coords c))
       else 0))).sum)

def jac_spec (X : List Pt) (cells : List Cell) (x : List ℚ) : List ℚ :=
  let coords := writeInterior cells X (unflatten x)
  flattenPts ((interiorNodes cells coords.length).map
    (fun i => jacGradSpec coords cells i))

theorem jacGradRaw_eq (coords : List Pt) (cells : List Cell) (i : Nat) :
    pscale (2 / (2 + 1)) (jacGradRaw coords cells i) = jacGradSpec coords cells i := by
  unfold jacGradRaw jacGradSpec gradPairs
  rw [scatterAdd_apply, scatterAdd_apply, scatterAdd_apply,
      hitSum_map, hitSum_map, hitSum_map,
      map_congr_on cells
        (fun c => if c.1 = i then
            pscale (cellVolume coords c) (psub (nodeAt coords c.1) (circumcenter coords c))
          else 0)
        (fun c => if c.1 = i then
            pscale (cellVolume coords c) (psub (nodeAt coords i) (circumcenter coords c))
          else 0)
        (fun c _ => by by_cases h : c.1 = i <;> simp [h]),
      map_congr_on cells
        (fun c => if c.2.1 = i then
            pscale (cellVolume coords c) (psub (nodeAt coords c.2.1) (circumcenter coords c))
          else 0)
        (fun c => if c.2.1 = i then
            pscale (cellVolume coords c) (psub (nodeAt coords i) (circumcenter coords c))
          else 0)
        (fun c _ => by by_cases h : c.2.1 = i <;> simp [h]),
      map_congr_on cells
        (fun c => if c.2.2 = i then
            pscale (cellVolume coords c) (psub (nodeAt coords c.2.2) (circumcenter coords c))
          else 0)
        (fun c => if c.2.2 = i then
            pscale (cellVolume coords c) (psub (nodeAt coords i) (circumcenter coords c))
          else 0)
        (fun c _ => by by_cases h : c.2.2 = i <;> simp [h]),
      sum_map_add cells
        (fun c => (if c.1 = i then
            pscale (cellVolume coords c) (psub (nodeAt coords i) (circumcenter coords c))
          else 0) +
          (if c.2.1 = i then
            pscale (cellVolume coords c) (psub (nodeAt coords i) (circumcenter coords c))
          else 0))
        (fun c => if c.2.2 = i then
            pscale (cellVolume coords c) (psub (nodeAt coords i) (circumcenter coords c))
          else 0),
      sum_map_add cells
        (fun c => if c.1 = i then
            pscale (cellVolume coords c) (psub (nodeAt coords i) (circumcenter coords c))
          else 0)
        (fun c => if c.2.1 = i then
            pscale (cellVolume coords c) (psub (nodeAt coords i) (circumcenter coords c))
          else 0),
      zero_add]

/-- C3: the optimizer's gradient `jac` equals the spec formula: for each cell
accumulate `(node_coord - cell_circumcenter) * cell_volume` into each of its 3
nodes, scale the per-node result by `2/(d+1)` with `d = 2`, restrict to
interior nodes in the order `mesh.is_interior_node` selects them, flattened
into the parameter vector. -/
theorem odt_c3_jac_formula (X : List Pt) (cells : List Cell) (x : List ℚ) :
    jac X cells x = jac_spec X cells x := by
  simp only [jac, jac_spec]
  exact congrArg flattenPts
    (map_congr_on _ _ _ (fun i _ => jacGradRaw_eq _ _ _))

/-! ### Per-cell relocation targets
(`get_new_points` of both fixed-point variants, odt.py lines 80-88, 102-110) -/

def cell_circumcenters (m : Mesh) : List Pt :=
  m.cells.map (fun c => circumcenter m.node_coords c)

def cell_barycenters (m : Mesh) : List Pt :=
  m.cells.map (fun c => barycenter m.node_coords c)

/-- Modelled from the spec: `mesh.edges_cells[1][:, 0]` of the mesh
collaborator — the ids of the cells incident to a boundary edge. -/
def boundary_cell_ids (m : Mesh) : List Nat :=
  (List.range m.cells.length).filter
    (fun j => is_boundary_cell m.cells (cellAt m.cells j))

/-- Numpy fancy-index assignment `arr[ids] = vals[ids]`. -/
def overwriteAt (base vals : List Pt) (ids : List Nat) : List Pt :=
  ids.foldl (fun arr j => arr.set j (vals.getD j (0, 0))) base

/-- The per-cell target array built by `get_new_points`: the circumcenter
array with the boundary cells' entries overwritten by barycenters. -/
def odtTargetPoints (m : Mesh) : List Pt :=
  overwriteAt (cell_circumcenters m) (cell_barycenters m) (boundary_cell_ids m)

/-- Spec wording (claim C4): every cell's circumcenter, except the barycenter
for every cell that touches the mesh boundary. -/
def targetPoints_spec (m : Mesh) : List Pt :=
  m.cells.map (fun c =>
    if is_boundary_cell m.cells c then barycenter m.node_coords c
    else circumcenter m.node_coords c)

/-- Cell ids of the star of node `i`. -/
def starCellIds (m : Mesh) (i : Nat) : List Nat :=
  (List.range m.cells.length).filter (fun j =>
    (cellAt m.cells j).1 == i || (cellAt m.cells j).2.1 == i ||
      (cellAt m.cells j).2.2 == i)

/-- Modelled from the spec: the generic averaging helper of
`optimesh.helpers` (not under `src/`) — for each interior node the `w`-weighted
average of the target points of the cells in its star; boundary nodes keep
their current coordinates. -/
def averagedPoints (m : Mesh) (tp : List Pt) (w : Nat → ℚ) : List Pt :=
  (List.range m.node_coords.length).map (fun i =>
    if is_interior_node m.cells i then
      pscale (1 / ((starCellIds m i).map w).sum)
        (((starCellIds m i).map (fun j => pscale (w j) (tp.getD j (0, 0)))).sum)
    else nodeAt m.node_coords i)

/-- Modelled from the spec: `get_new_points_volume_averaged` of
`optimesh.helpers` (not under `src/`) — the volume-weighted average of the
per-cell target points over each interior node's star. -/
def get_new_points_volume_averaged (m : Mesh) (tp : List Pt) : List Pt :=
  averagedPoints m tp (fun j => cellVolume m.node_coords (cellAt m.cells j))

/-- Modelled from the spec: `get_new_points_count_averaged` of
`optimesh.helpers` (not under `src/`) — the unweighted average of the
per-cell target points over each interior node's star. -/
def get_new_points_count_averaged (m : Mesh) (tp : List Pt) : List Pt :=
  averagedPoints m tp (fun _ => 1)

/-- `fixed_point_uniform.get_new_points` (value part). -/
def getNewPointsUniform (m : Mesh) : List Pt :=
  get_new_points_volume_averaged m (odtTargetPoints m)

/-- `fixed_point_density_preserving.get_new_points` (value part). -/
def getNewPointsDensityPreserving (m : Mesh) : List Pt :=
  get_new_points_count_averaged m (odtTargetPoints m)

/-! ### The mesh state carried through `get_new_points` (claim C7) -/

structure MeshState where
  mesh : Mesh
  cell_circumcenters_cache : List Pt
deriving DecidableEq

/-- Modelled from the spec: the meshplex mesh state holds its derived
per-cell geometry; `mesh.cell_circumcenters` returns the stored array itself,
and the fancy assignment `cc[ids] = bc[ids]` writes through into it. -/
def mkMeshState (m : Mesh) : MeshState := ⟨m, cell_circumcenters m⟩

/-- `fixed_point_uniform.get_new_points` with the mesh-state mutation made
explicit: `cc = mesh.cell_circumcenters` aliases the cache, so the in-place
overwrite is carried into the state returned alongside the value. -/
def get_new_points_uniform_state (s : MeshState) : List Pt × MeshState :=
  let cc2 := overwriteAt s.cell_circumcenters_cache (cell_barycenters s.mesh)
    (boundary_cell_ids s.mesh)
  (get_new_points_volume_averaged s.mesh cc2, ⟨s.mesh, cc2⟩)

/-- `fixed_point_density_preserving.get_new_points` with the state made
explicit. -/
def get_new_points_dp_state (s : MeshState) : List Pt × MeshState :=
  let cc2 := overwriteAt s.cell_circumcenters_cache (cell_barycenters s.mesh)
    (boundary_cell_ids s.mesh)
  (get_new_points_count_averaged s.mesh cc2, ⟨s.mesh, cc2⟩)

/-! ### List access lemmas -/

theorem getD_set_self {α : Type} (l : List α) (i : Nat) (a d : α)
    (h : i < l.length) : (l.set i a).getD i d = a := by
  induction l generalizing i with
  | nil => simp at h
  | cons x xs ih =>
      cases i with
      | zero => rfl
      | succ j =>
          show (xs.set j a).getD j d = a
          exact ih j (Nat.lt_of_succ_lt_succ h)

theorem getD_set_ne {α : Type} (l : List α) (i k : Nat) (a d : α)
    (h : i ≠ k) : (l.set i a).getD k d = l.getD k d := by
  induction l generalizing i k with
  | nil => rfl
  | cons x xs ih =>
      cases i with
      | zero =>
          cases k with
          | zero => exact absurd rfl h
          | succ j => rfl
      | succ i2 =>
          cases k with
          | zero => rfl
          | succ j =>
              show (xs.set i2 a).getD j d = xs.getD j d
              exact ih i2 j (fun hh => h (congrArg Nat.succ hh))

theorem getD_map_lt {α β : Type} (f : α → β) (l : List α) (k : Nat) (d : β)
    (d2 : α) (h : k < l.length) : (l.map f).getD k d = f (l.getD k d2) := by
  induction l generalizing k with
  | nil => simp at h
  | cons x xs ih =>
      cases k with
      | zero => rfl
      | succ j =>
          show (xs.map f).getD j d = f (xs.getD j d2)
          exact ih j (Nat.lt_of_succ_lt_succ h)

theorem list_ext_getD {α : Type} (d : α) : ∀ (l1 l2 : List α),
    l1.length = l2.length →
    (∀ k, k < l1.length → l1.getD k d = l2.getD k d) → l1 = l2
  | [], [], _, _ => rfl
  | [], x :: xs, h, _ => by simp at h
  | x :: xs, [], h, _ => by simp at h
  | x :: xs, y :: ys, h, hp => by
      have h0 : x = y := hp 0 (Nat.succ_pos _)
      have ht : xs = ys := list_ext_getD d xs ys (Nat.succ.inj h)
        (fun k hk => hp (k + 1) (Nat.succ_lt_succ hk))
      rw [h0, ht]

theorem overwriteAt_length (vals : List Pt) (ids : List Nat) :
    ∀ (base : List Pt), (overwriteAt base vals ids).length = base.length := by
  induction ids with
  | nil => intro base; rfl
  | cons j ids ih =>
      intro base
      show (overwriteAt (base.set j (vals.getD j (0, 0))) vals ids).length = _
      rw [ih, List.length_set]

theorem overwriteAt_getD (vals : List Pt) (ids : List Nat) (k : Nat) (d : Pt) :
    ∀ (base : List Pt), k < base.length →
      (overwriteAt base vals ids).getD k d =
        if k ∈ ids then vals.getD k (0, 0) else base.getD k d := by
  induction ids with
  | nil => intro base hk; simp [overwriteAt]
  | cons j ids ih =>
      intro base hk
      show (overwriteAt (base.set j (vals.getD j (0, 0))) vals ids).getD k d = _
      rw [ih _ (by rw [List.length_set]; exact hk)]
      by_cases hmem : k ∈ ids
      · simp [hmem, List.mem_cons]
      · by_cases hjk : j = k
        · subst hjk
          rw [getD_set_self base j _ d hk]
          simp [hmem, List.mem_cons]
        · rw [getD_set_ne base j k _ d hjk]
          have hne : ¬ k = j := fun hh => hjk hh.symm
          simp [hmem, hne, List.mem_cons]

theorem odtTargetPoints_eq (m : Mesh) :
    odtTargetPoints m = targetPoints_spec m := by
  apply list_ext_getD (0, 0)
  · show (overwriteAt _ _ _).length = _
    rw [overwriteAt_length, targetPoints_spec]
    unfold cell_circumcenters
    rw [List.length_map, List.length_map]
  · intro k hk
    have hk2 : k < m.cells.length := by
      have hlen : (odtTargetPoints m).length = m.cells.length := by
        show (overwriteAt _ _ _).length = _
        rw [overwriteAt_length]
        unfold cell_circumcenters
        rw [List.length_map]
      rw [hlen] at hk
      exact hk
    have hbase : k < (cell_circumcenters m).length := by
      unfold cell_circumcenters
      rw [List.length_map]
      exact hk2
    show (overwriteAt _ _ _).getD k (0, 0) = _
    rw [overwriteAt_getD _ _ _ _ _ hbase]
    unfold targetPoints_spec
    rw [getD_map_lt _ _ _ _ (0, 0, 0) hk2]
    by_cases hb : is_boundary_cell m.cells (m.cells.getD k (0, 0, 0)) = true
    · have hmem : k ∈ boundary_cell_ids m :=
        List.mem_filter.mpr ⟨List.mem_range.mpr hk2, hb⟩
      rw [if_pos hmem, if_pos hb]
      unfold cell_barycenters
      rw [getD_map_lt _ _ _ _ (0, 0, 0) hk2]
    · have hmem : ¬ k ∈ boundary_cell_ids m := by
        intro hmem
        exact hb (List.mem_filter.mp hmem).2
      rw [if_neg hmem, if_neg hb]
      unfold cell_circumcenters
      rw [getD_map_lt _ _ _ _ (0, 0, 0) hk2]

/-- C4: in both fixed-point variants, `get_new_points` builds the per-cell
target array by taking every cell's circumcenter and replacing the entry of
every boundary-touching cell (a cell one of whose edges has exactly one
incident cell) by the cell's barycenter; `fixed_point_uniform` hands this
array to the volume-weighted averaging helper and
`fixed_point_density_preserving` hands it to the unweighted count-averaging
helper. -/
theorem odt_c4_get_new_points (m : Mesh) :
    odtTargetPoints m = targetPoints_spec m ∧
    getNewPointsUniform m = get_new_points_volume_averaged m (targetPoints_spec m) ∧
    getNewPointsDensityPreserving m =
      get_new_points_count_averaged m (targetPoints_spec m) := by
  refine ⟨odtTargetPoints_eq m, ?_, ?_⟩
  · unfold getNewPointsUniform
    rw [odtTargetPoints_eq]
  · unfold getNewPointsDensityPreserving
    rw [odtTargetPoints_eq]

/-- C7 refutation at a concrete mesh: `get_new_points` of either fixed-point
variant overwrites the mesh state's cached circumcenter array in place (the
local `cc` is a view of the cache, not a copy), so calling it changes the
mesh state's derived geometry. -/
theorem odt_c7_state_mutation :
    (get_new_points_uniform_state (mkMeshState sqMesh)).2 ≠ mkMeshState sqMesh ∧
    (get_new_points_dp_state (mkMeshState sqMesh)).2 ≠ mkMeshState sqMesh := by
  constructor <;> decide

/-! ### Delaunay edge flips (claims C5, C6, C8) -/

def orient2d (a b c : Pt) : ℚ := cross2 (psub b a) (psub c a)

/-- Classical in-circle determinant: positive iff `d` lies strictly inside
the circumcircle of the counterclockwise triangle `(a, b, c)`. -/
def incircleDet (a b c d : Pt) : ℚ :=
  let m11 := a.1 - d.1
  let m12 := a.2 - d.2
  let m21 := b.1 - d.1
  let m22 := b.2 - d.2
  let m31 := c.1 - d.1
  let m32 := c.2 - d.2
  let m13 := m11 * m11 + m12 * m12
  let m23 := m21 * m21 + m22 * m22
  let m33 := m31 * m31 + m32 * m32
  m11 * (m22 * m33 - m23 * m32) - m12 * (m21 * m33 - m23 * m31) +
    m13 * (m21 * m32 - m22 * m31)

/-- The shared edge of `t` and its neighbor violates the empty-circumcircle
condition against the neighbor's opposite vertex `q` (orientation-corrected
strict in-circle test). -/
def flipNeeded (coords : List Pt) (t : Cell) (q : Nat) : Bool :=
  let a := nodeAt coords t.1
  let b := nodeAt coords t.2.1
  let c := nodeAt coords t.2.2
  decide (0 < orient2d a b c * incircleDet a b c (nodeAt coords q))

/-- The vertex of `c` not on the edge `e`. -/
def oppositeVertex (c : Cell) (e : Nat × Nat) : Nat :=
  if c.1 ≠ e.1 ∧ c.1 ≠ e.2 then c.1
  else if c.2.1 ≠ e.1 ∧ c.2.1 ≠ e.2 then c.2.1
  else c.2.2

/-- The two cell lists have the same boundary edges (mutual membership of the
count-1 edge lists). -/
def sameBoundary (c1 c2 : List Cell) : Bool :=
  (boundaryEdges c1).all (fun e => (boundaryEdges c2).contains e) &&
  (boundaryEdges c2).all (fun e => (boundaryEdges c1).contains e)

/-- Modelled from the spec: one Delaunay edge flip of the mesh collaborator —
two cells sharing exactly one interior edge whose pairing violates the
empty-circumcircle condition are re-paired along the other diagonal of their
quadrilateral.  The guards (a genuinely shared 2-cell edge, distinct corner
vertices, a fresh diagonal, unchanged boundary-edge set) hold on any valid
triangulation and pin down the operator on junk inputs. -/
def tryFlipPair (coords : List Pt) (cells : List Cell) (i j : Nat) :
    Option (List Cell) :=
  let ci := cellAt cells i
  let cj := cellAt cells j
  match (cellEdges ci).filter (fun e => (cellEdges cj).contains e) with
  | [e] =>
    if edgeCount cells e == 2 then
      let p := oppositeVertex ci e
      let q := oppositeVertex cj e
      if p ≠ q ∧ p ≠ e.1 ∧ p ≠ e.2 ∧ q ≠ e.1 ∧ q ≠ e.2 ∧
          edgeCount cells (edgeKey p q) == 0 then
        if flipNeeded coords ci q then
          let cells2 := (cells.set i (e.1, p, q)).set j (e.2, q, p)
          if sameBoundary cells cells2 then some cells2 else none
        else none
      else none
    else none
  | _ => none

def candidatePairs (n : Nat) : List (Nat × Nat) :=
  (List.range n).flatMap (fun i =>
    (List.range n).filterMap (fun j => if i < j then some (i, j) else none))

/-- One pass: the first flippable cell pair, in scan order. -/
def flipStep (coords : List Pt) (cells : List Cell) : Option (List Cell) :=
  (candidatePairs cells.length).findSome?
    (fun ij => tryFlipPair coords cells ij.1 ij.2)

def flipLoop (coords : List Pt) : Nat → List Cell → List Cell
  | 0, cells => cells
  | fuel + 1, cells =>
    match flipStep coords cells with
    | none => cells
    | some cells2 => flipLoop coords fuel cells2

/-- Modelled from the spec: `mesh.flip_until_delaunay()` of the mesh
collaborator — repeatedly flip any non-Delaunay edge until none remains;
node coordinates are never touched.  The spec notes termination in finitely
many flips; the model bounds the loop by a fuel budget. -/
def flip_until_delaunay (coords : List Pt) (cells : List Cell) : List Cell :=
  flipLoop coords ((cells.length + 1) * (cells.length + 1)) cells

theorem tryFlipPair_sameBoundary (coords : List Pt) (cells : List Cell)
    (i j : Nat) (cells2 : List Cell)
    (h : tryFlipPair coords cells i j = some cells2) :
    sameBoundary cells cells2 = true := by
  simp only [tryFlipPair] at h
  split at h
  · split at h
    · split at h
      · split at h
        · split at h
          next hsb =>
            have h2 := Option.some.inj h
            rw [← h2]
            exact hsb
          next => exact Option.noConfusion h
        · exact Option.noConfusion h
      · exact Option.noConfusion h
    · exact Option.noConfusion h
  · exact Option.noConfusion h

theorem flipStep_sameBoundary (coords : List Pt) (cells cells2 : List Cell)
    (h : flipStep coords cells = some cells2) :
    sameBoundary cells cells2 = true := by
  obtain ⟨ij, hmem, hf⟩ := List.exists_of_findSome?_eq_some h
  exact tryFlipPair_sameBoundary coords cells ij.1 ij.2 cells2 hf

theorem interior_eq_of_sameBoundary (c1 c2 : List Cell)
    (h : sameBoundary c1 c2 = true) (i : Nat) :
    is_interior_node c1 i = is_interior_node c2 i := by
  unfold sameBoundary at h
  rw [Bool.and_eq_true, List.all_eq_true, List.all_eq_true] at h
  obtain ⟨h1, h2⟩ := h
  unfold is_interior_node
  have hiff : ((boundaryEdges c1).any (fun e => e.1 == i || e.2 == i) = true) ↔
      ((boundaryEdges c2).any (fun e => e.1 == i || e.2 == i) = true) := by
    rw [List.any_eq_true, List.any_eq_true]
    constructor
    · rintro ⟨e, he, hp⟩
      exact ⟨e, List.mem_of_elem_eq_true (h1 e he), hp⟩
    · rintro ⟨e, he, hp⟩
      exact ⟨e, List.mem_of_elem_eq_true (h2 e he), hp⟩
  exact congrArg Bool.not (Bool.eq_iff_iff.mpr hiff)

theorem flipLoop_interior (coords : List Pt) (i : Nat) :
    ∀ (fuel : Nat) (cells : List Cell),
      is_interior_node (flipLoop coords fuel cells) i = is_interior_node cells i := by
  intro fuel
  induction fuel with
  | zero => intro cells; rfl
  | succ fuel ih =>
      intro cells
      cases hs : flipStep coords cells with
      | none => simp only [flipLoop, hs]
      | some cells2 =>
          simp only [flipLoop, hs]
          rw [ih cells2]
          exact (interior_eq_of_sameBoundary cells cells2
            (flipStep_sameBoundary coords cells cells2 hs) i).symm

theorem flip_until_delaunay_interior (coords : List Pt) (cells : List Cell)
    (i : Nat) :
    is_interior_node (flip_until_delaunay coords cells) i =
      is_interior_node cells i :=
  flipLoop_interior coords i _ cells

theorem flipLoop_of_none (coords : List Pt) (cells : List Cell)
    (h : flipStep coords cells = none) :
    ∀ fuel, flipLoop coords fuel cells = cells := by
  intro fuel
  cases fuel with
  | zero => rfl
  | succ fuel => simp only [flipLoop, h]

theorem flip_until_delaunay_of_none (coords : List Pt) (cells : List Cell)
    (h : flipStep coords cells = none) :
    flip_until_delaunay coords cells = cells :=
  flipLoop_of_none coords cells h _

/-! ### The fixed-point entry points
(`fixed_point_uniform` / `fixed_point_density_preserving`, odt.py 73-114) -/

/-- One driver step: the relocation targets applied to the interior nodes. -/
def maskWrite (isInt : Nat → Bool) (newpts : List Pt) : Nat → List Pt → List Pt
  | _, [] => []
  | k, p :: ps =>
    (if isInt k then newpts.getD k p else p) :: maskWrite isInt newpts (k + 1) ps

def runnerStep (gnp : Mesh → List Pt) (m : Mesh) : Mesh :=
  ⟨maskWrite (is_interior_node m.cells) (gnp m) 0 m.node_coords, m.cells⟩

/-- Modelled from the spec: the iteration driver `runner` of
`optimesh.helpers` (not under `src/`).  Per the spec it calls
`get_new_points(mesh)` once per outer iteration and applies the result to the
interior nodes until a positional tolerance or the iteration cap
`max_num_steps` is reached; the tolerance test and the orientation-preserving
damping only stop early or shorten the step (again writing interior nodes
only), so the model iterates the undamped update exactly `max_num_steps`
times (`tol` is recorded but, like any early stop, cannot affect the
properties claimed here). -/
def runner (gnp : Mesh → List Pt) (tol : ℚ) : Nat → Mesh → Mesh
  | 0, m => m
  | k + 1, m => runner gnp tol k (runnerStep gnp m)

def fixed_point_uniform (points : List Pt) (cells : List Cell) (tol : ℚ)
    (max_num_steps : Nat) : List Pt × List Cell :=
  ((runner getNewPointsUniform tol max_num_steps ⟨points, cells⟩).node_coords,
   (runner getNewPointsUniform tol max_num_steps ⟨points, cells⟩).cells)

def fixed_point_density_preserving (points : List Pt) (cells : List Cell)
    (tol : ℚ) (max_num_steps : Nat) : List Pt × List Cell :=
  ((runner getNewPointsDensityPreserving tol max_num_steps ⟨points, cells⟩).node_coords,
   (runner getNewPointsDensityPreserving tol max_num_steps ⟨points, cells⟩).cells)

/-! ### The nonlinear optimizer
(`nonlinear_optimization_uniform`, odt.py lines 117-244) -/

/-- `f(x)` (odt.py 162-165): write `x` into the interior-node coordinates,
recompute geometry, return `energy(mesh, uniform_density=True)`. -/
def objF (X : List Pt) (cells : List Cell) (x : List ℚ) : Option ℚ :=
  energy ⟨writeInterior cells X (unflatten x), cells⟩ true

/-- The `"Before:"` statistics line (odt.py 158-160) evaluates `energy(mesh)`
with the default density argument. -/
def printedEnergyBefore (X : List Pt) (cells : List Cell) : Option ℚ :=
  energy ⟨X, cells⟩

/-- The `"Final:"` statistics line (odt.py 239-241), default density again. -/
def printedEnergyAfter (X : List Pt) (cells : List Cell) : Option ℚ :=
  energy ⟨X, cells⟩

structure OptState where
  coords : List Pt
  cells : List Cell
  log : List (Nat × List Pt × List Cell)
  k : Nat
deriving DecidableEq

/-- One accepted optimizer step's `flip_delaunay` callback (odt.py 182-206):
write the iterate into the interior nodes, recompute, flip until Delaunay,
then invoke the caller-supplied callback with the running step count (the
callback invocations are recorded in `log` when `hascb`). -/
def optStep (hascb : Bool) (s : OptState) (x : List ℚ) : OptState :=
  { coords := writeInterior s.cells s.coords (unflatten x)
    cells := flip_until_delaunay (writeInterior s.cells s.coords (unflatten x)) s.cells
    log := s.log ++ (if hascb then
      [(s.k + 1, writeInterior s.cells s.coords (unflatten x),
        flip_until_delaunay (writeInterior s.cells s.coords (unflatten x)) s.cells)]
      else [])
    k := s.k + 1 }

def runAccepted (hascb : Bool) (accepted : List (List ℚ)) (s : OptState) : OptState :=
  accepted.foldl (optStep hascb) s

/-- The state before the minimizer starts, including the `callback(0, mesh)`
invocation of odt.py 212-213. -/
def initState (hascb : Bool) (X : List Pt) (cells0 : List Cell) : OptState :=
  ⟨X, cells0, if hascb then [(0, X, cells0)] else [], 0⟩

/-- `x0 = X[mesh.is_interior_node].flatten()` (odt.py 210). -/
def x0Vec (X : List Pt) (cells0 : List Cell) : List ℚ :=
  flattenPts (intVals (is_interior_node cells0) 0 X)

/-- The minimizer's final iterate `out.x`: the last accepted iterate, or `x0`
when no step was accepted. -/
def finalIterate (accepted : List (List ℚ)) (X : List Pt) (cells0 : List Cell) :
    List ℚ :=
  accepted.getLastD (x0Vec X cells0)

/-- Odt.py 235-236: `out.x` written into the interior nodes of the final
mesh. -/
def finalCoords (hascb : Bool) (accepted : List (List ℚ)) (X : List Pt)
    (cells0 : List Cell) : List Pt :=
  writeInterior (runAccepted hascb accepted (initState hascb X cells0)).cells
    (runAccepted hascb accepted (initState hascb X cells0)).coords
    (unflatten (finalIterate accepted X cells0))

/-- Odt.py 237: the one last edge flip. -/
def finalCells (hascb : Bool) (accepted : List (List ℚ)) (X : List Pt)
    (cells0 : List Cell) : List Cell :=
  flip_until_delaunay (finalCoords hascb accepted X cells0)
    (runAccepted hascb accepted (initState hascb X cells0)).cells

structure OptRun where
  points : List Pt
  cells : List Cell
  log : List (Nat × List Pt × List Cell)
deriving DecidableEq

/-- `nonlinear_optimization_uniform` (odt.py 117-244).  The scipy BFGS
minimizer is an external collaborator; modelled from the spec, its
nondeterministic choice of accepted iterates enters as the parameter
`accepted` (one flattened interior-coordinate vector per accepted step, at
most `max_num_steps` of them) and its convergence report as `success`, which
the source deliberately ignores (`# Don't assert out.success`); `tol` is
consumed by the minimizer alone.  The two `print_stats` calls evaluate
`energy(mesh)` and can hit the fatal assertion: `none` models that abort. -/
def nonlinear_optimization_uniform (accepted : List (List ℚ)) (success : Bool)
    (X : List Pt) (cells0 : List Cell) (tol : ℚ) (max_num_steps : Nat)
    (hascb : Bool) : Option OptRun :=
  match printedEnergyBefore X cells0 with
  | none => none
  | some _ =>
    match printedEnergyAfter (finalCoords hascb accepted X cells0)
        (finalCells hascb accepted X cells0) with
    | none => none
    | some _ =>
      some ⟨finalCoords hascb accepted X cells0,
            finalCells hascb accepted X cells0,
            (runAccepted hascb accepted (initState hascb X cells0)).log⟩

/-- The non-Delaunay two-triangle mesh: the diagonal `0-3` of the
quadrilateral violates the empty-circumcircle condition. -/
def ndX : List Pt := [(0, 0), (1, 0), (0, 1), (6 / 5, 6 / 5)]

def ndC : List Cell := [(0, 1, 3), (0, 3, 2)]

/-! ### Write/roundtrip lemmas for the optimizer -/

theorem unflatten_flattenPts : ∀ (l : List Pt), unflatten (flattenPts l) = l := by
  intro l
  induction l with
  | nil => rfl
  | cons p ps ih =>
      show unflatten (p.1 :: p.2 :: flattenPts ps) = p :: ps
      rw [unflatten, ih]

theorem writeInteriorAux_intVals (isInt : Nat → Bool) :
    ∀ (coords : List Pt) (k : Nat),
      writeInteriorAux isInt k coords (intVals isInt k coords) = coords := by
  intro coords
  induction coords with
  | nil => intro k; rfl
  | cons p ps ih =>
      intro k
      cases hb : isInt k with
      | true =>
          simp only [intVals, writeInteriorAux, hb, if_true]
          rw [ih (k + 1)]
      | false =>
          simp only [intVals, writeInteriorAux, hb, Bool.false_eq_true, if_false]
          rw [ih (k + 1)]

theorem writeInterior_self (cells : List Cell) (X : List Pt) :
    writeInterior cells X (unflatten (x0Vec X cells)) = X := by
  unfold writeInterior x0Vec
  rw [unflatten_flattenPts]
  exact writeInteriorAux_intVals (is_interior_node cells) X 0

theorem writeInteriorAux_getD (isInt : Nat → Bool) (d : Pt) :
    ∀ (coords : List Pt) (k : Nat) (xs : List Pt) (i : Nat),
      isInt (k + i) = false →
      (writeInteriorAux isInt k coords xs).getD i d = coords.getD i d := by
  intro coords
  induction coords with
  | nil => intro k xs i h; rfl
  | cons p ps ih =>
      intro k xs i h
      cases hb : isInt k with
      | true =>
          cases xs with
          | nil =>
              simp only [writeInteriorAux, hb, if_true]
              cases i with
              | zero => rfl
              | succ i2 =>
                  show (writeInteriorAux isInt (k + 1) ps []).getD i2 d = ps.getD i2 d
                  exact ih (k + 1) [] i2 (by
                    have h9 : k + 1 + i2 = k + (i2 + 1) := by omega
                    rw [h9]; exact h)
          | cons x xs2 =>
              cases i with
              | zero =>
                  rw [Nat.add_zero] at h
                  rw [h] at hb
                  exact Bool.noConfusion hb
              | succ i2 =>
                  simp only [writeInteriorAux, hb, if_true]
                  show (writeInteriorAux isInt (k + 1) ps xs2).getD i2 d = ps.getD i2 d
                  exact ih (k + 1) xs2 i2 (by
                    have h9 : k + 1 + i2 = k + (i2 + 1) := by omega
                    rw [h9]; exact h)
      | false =>
          simp only [writeInteriorAux, hb, if_false]
          cases i with
          | zero => rfl
          | succ i2 =>
              show (writeInteriorAux isInt (k + 1) ps xs).getD i2 d = ps.getD i2 d
              exact ih (k + 1) xs i2 (by
                have h9 : k + 1 + i2 = k + (i2 + 1) := by omega
                rw [h9]; exact h)

theorem writeInterior_getD (cells : List Cell) (coords xs : List Pt) (i : Nat)
    (d : Pt) (h : is_interior_node cells i = false) :
    (writeInterior cells coords xs).getD i d = coords.getD i d :=
  writeInteriorAux_getD _ d coords 0 xs i (by rwa [Nat.zero_add])

theorem maskWrite_getD (isInt : Nat → Bool) (np : List Pt) (d : Pt) :
    ∀ (coords : List Pt) (k : Nat) (i : Nat), isInt (k + i) = false →
      (maskWrite isInt np k coords).getD i d = coords.getD i d := by
  intro coords
  induction coords with
  | nil => intro k i h; rfl
  | cons p ps ih =>
      intro k i h
      cases i with
      | zero =>
          rw [Nat.add_zero] at h
          show ((if isInt k then np.getD k p else p) ::
            maskWrite isInt np (k + 1) ps).getD 0 d = p
          rw [h]
          rfl
      | succ i2 =>
          show (maskWrite isInt np (k + 1) ps).getD i2 d = ps.getD i2 d
          exact ih (k + 1) i2 (by
            have h9 : k + 1 + i2 = k + (i2 + 1) := by omega
            rw [h9]; exact h)

/-! ### Boundary preservation through the iteration drivers -/

theorem runner_cells (gnp : Mesh → List Pt) (tol : ℚ) :
    ∀ (k : Nat) (m : Mesh), (runner gnp tol k m).cells = m.cells := by
  intro k
  induction k with
  | zero => intro m; rfl
  | succ k ih =>
      intro m
      show (runner gnp tol k (runnerStep gnp m)).cells = m.cells
      rw [ih]
      rfl

theorem runner_boundary_getD (gnp : Mesh → List Pt) (tol : ℚ) (i : Nat) (d : Pt) :
    ∀ (k : Nat) (m : Mesh), is_interior_node m.cells i = false →
      (runner gnp tol k m).node_coords.getD i d = m.node_coords.getD i d := by
  intro k
  induction k with
  | zero => intro m h; rfl
  | succ k ih =>
      intro m h
      show (runner gnp tol k (runnerStep gnp m)).node_coords.getD i d = _
      rw [ih (runnerStep gnp m) h]
      exact maskWrite_getD _ _ d m.node_coords 0 i (by rwa [Nat.zero_add])

theorem runAccepted_boundary (hascb : Bool) (i : Nat) (d : Pt) :
    ∀ (accepted : List (List ℚ)) (s : OptState),
      is_interior_node s.cells i = false →
      (is_interior_node (runAccepted hascb accepted s).cells i = false ∧
       (runAccepted hascb accepted s).coords.getD i d = s.coords.getD i d) := by
  intro accepted
  induction accepted with
  | nil => intro s h; exact ⟨h, rfl⟩
  | cons x xs ih =>
      intro s h
      have hstep : is_interior_node (optStep hascb s x).cells i = false := by
        show is_interior_node (flip_until_delaunay
          (writeInterior s.cells s.coords (unflatten x)) s.cells) i = false
        rw [flip_until_delaunay_interior]
        exact h
      obtain ⟨h1, h2⟩ := ih (optStep hascb s x) hstep
      refine ⟨h1, ?_⟩
      show (runAccepted hascb xs (optStep hascb s x)).coords.getD i d =
        s.coords.getD i d
      rw [h2]
      exact writeInterior_getD s.cells s.coords (unflatten x) i d h

/-! ### Dissecting a successful optimizer run -/

theorem nonlinear_some_elim (accepted : List (List ℚ)) (success : Bool)
    (X : List Pt) (cells0 : List Cell) (tol : ℚ) (cap : Nat) (hascb : Bool)
    (r : OptRun)
    (h : nonlinear_optimization_uniform accepted success X cells0 tol cap hascb
      = some r) :
    r = ⟨finalCoords hascb accepted X cells0, finalCells hascb accepted X cells0,
         (runAccepted hascb accepted (initState hascb X cells0)).log⟩ := by
  unfold nonlinear_optimization_uniform at h
  split at h
  · exact Option.noConfusion h
  · split at h
    · exact Option.noConfusion h
    · exact (Option.some.inj h).symm

/-! ### Callback-log lemmas (claim C10) -/

theorem range_map_shift (a : Nat) (n : Nat) :
    (List.range (n + 1)).map (fun t => a + t) =
      a :: (List.range n).map (fun t => a + 1 + t) := by
  rw [List.range_succ_eq_map, List.map_cons, List.map_map]
  congr 1
  exact map_congr_on _ _ _ (fun t _ => by
    show a + (t + 1) = a + 1 + t
    omega)

theorem runAccepted_log_prefix (hascb : Bool) :
    ∀ (accepted : List (List ℚ)) (s : OptState),
      ∃ t, (runAccepted hascb accepted s).log = s.log ++ t := by
  intro accepted
  induction accepted with
  | nil => intro s; exact ⟨[], (List.append_nil s.log).symm⟩
  | cons x xs ih =>
      intro s
      obtain ⟨t, ht⟩ := ih (optStep hascb s x)
      have h2 : (optStep hascb s x).log =
          s.log ++ (if hascb then
            [(s.k + 1, writeInterior s.cells s.coords (unflatten x),
              flip_until_delaunay (writeInterior s.cells s.coords (unflatten x)) s.cells)]
            else []) := rfl
      refine ⟨(if hascb then
          [(s.k + 1, writeInterior s.cells s.coords (unflatten x),
            flip_until_delaunay (writeInterior s.cells s.coords (unflatten x)) s.cells)]
          else []) ++ t, ?_⟩
      show (runAccepted hascb xs (optStep hascb s x)).log = _
      rw [ht, h2, List.append_assoc]

theorem runAccepted_log_map_fst_true :
    ∀ (accepted : List (List ℚ)) (s : OptState),
      (runAccepted true accepted s).log.map Prod.fst =
        s.log.map Prod.fst ++ (List.range accepted.length).map (fun t => s.k + 1 + t) := by
  intro accepted
  induction accepted with
  | nil => intro s; simp [runAccepted]
  | cons x xs ih =>
      intro s
      show (runAccepted true xs (optStep true s x)).log.map Prod.fst = _
      rw [ih (optStep true s x)]
      have h2 : (optStep true s x).log.map Prod.fst =
          s.log.map Prod.fst ++ [s.k + 1] := by
        have h3 : (optStep true s x).log = s.log ++
            [(s.k + 1, writeInterior s.cells s.coords (unflatten x),
              flip_until_delaunay (writeInterior s.cells s.coords (unflatten x)) s.cells)] := rfl
        rw [h3, List.map_append]
        rfl
      have h4 : (optStep true s x).k = s.k + 1 := rfl
      rw [h2, h4, List.append_assoc]
      congr 1
      show [s.k + 1] ++ (List.range xs.length).map (fun t => s.k + 1 + 1 + t) =
        (List.range (xs.length + 1)).map (fun t => s.k + 1 + t)
      rw [range_map_shift (s.k + 1) xs.length]
      rfl

/-- C10: when a callback is supplied, `nonlinear_optimization_uniform`
invokes it with step index 0 and the initial mesh before the minimizer
starts, and once per accepted optimizer step with the running step count —
the invocation indices are exactly `0, 1, …, accepted steps`, so the callback
fires at least once even with zero accepted steps. -/
theorem odt_c10_callback (accepted : List (List ℚ)) (success : Bool)
    (X : List Pt) (cells0 : List Cell) (tol : ℚ) (cap : Nat) (r : OptRun)
    (h : nonlinear_optimization_uniform accepted success X cells0 tol cap true
      = some r) :
    r.log.head? = some (0, X, cells0) ∧
    r.log.map Prod.fst = List.range (accepted.length + 1) := by
  have hr := nonlinear_some_elim accepted success X cells0 tol cap true r h
  have hlog : r.log = (runAccepted true accepted (initState true X cells0)).log := by
    rw [hr]
  constructor
  · obtain ⟨t, ht⟩ := runAccepted_log_prefix true accepted (initState true X cells0)
    rw [hlog, ht]
    rfl
  · rw [hlog, runAccepted_log_map_fst_true accepted (initState true X cells0)]
    show [0] ++ (List.range accepted.length).map (fun t => 0 + 1 + t) =
      List.range (accepted.length + 1)
    have h6 : (List.range (accepted.length + 1)).map (fun t => 0 + t) =
        List.range (accepted.length + 1) := by
      rw [map_congr_on _ _ id (fun t _ => Nat.zero_add t), List.map_id]
    rw [← h6, range_map_shift 0 accepted.length]
    rfl

/-- Witness for C10: one accepted step on the square mesh; the callback log
holds entries 0 and 1, the first with the initial mesh. -/
theorem odt_c10_callback_witness :
    (⟨sqX, sqC, [(0, sqX, sqC), (1, sqX, sqC)]⟩ : OptRun).log.head? =
      some (0, sqX, sqC) ∧
    (⟨sqX, sqC, [(0, sqX, sqC), (1, sqX, sqC)]⟩ : OptRun).log.map Prod.fst =
      List.range ([[(1 : ℚ), 1]].length + 1) :=
  odt_c10_callback [[1, 1]] true sqX sqC 0 1
    ⟨sqX, sqC, [(0, sqX, sqC), (1, sqX, sqC)]⟩ (by decide)

/-- C8: the optimizer's result does not depend on the minimizer's reported
success (reaching the iteration cap is not a failure), and a returned run is
always the post-processed one: the minimizer's final iterate written into the
interior-node coordinates, geometry recomputed, one more
Delaunay-flip-until-stable pass applied, and that mesh's (points, cells)
returned. -/
theorem odt_c8_termination_and_finalize (accepted : List (List ℚ))
    (s1 s2 : Bool) (X : List Pt) (cells0 : List Cell) (tol : ℚ) (cap : Nat)
    (hascb : Bool) (r : OptRun)
    (hlen : accepted.length ≤ cap)
    (h : nonlinear_optimization_uniform accepted s1 X cells0 tol cap hascb
      = some r) :
    nonlinear_optimization_uniform accepted s2 X cells0 tol cap hascb = some r ∧
    r.points = finalCoords hascb accepted X cells0 ∧
    r.cells = flip_until_delaunay (finalCoords hascb accepted X cells0)
      (runAccepted hascb accepted (initState hascb X cells0)).cells := by
  have hr := nonlinear_some_elim accepted s1 X cells0 tol cap hascb r h
  refine ⟨?_, ?_, ?_⟩
  · have hss : nonlinear_optimization_uniform accepted s2 X cells0 tol cap hascb
        = nonlinear_optimization_uniform accepted s1 X cells0 tol cap hascb := rfl
    rw [hss]
    exact h
  · rw [hr]
  · rw [hr]
    rfl

/-- Witness for C8 at the square mesh with zero accepted steps. -/
theorem odt_c8_termination_and_finalize_witness :
    nonlinear_optimization_uniform [] false sqX sqC 0 0 false =
      some ⟨sqX, sqC, []⟩ ∧
    (⟨sqX, sqC, []⟩ : OptRun).points = finalCoords false [] sqX sqC ∧
    (⟨sqX, sqC, []⟩ : OptRun).cells =
      flip_until_delaunay (finalCoords false [] sqX sqC)
        (runAccepted false [] (initState false sqX sqC)).cells :=
  odt_c8_termination_and_finalize [] true false sqX sqC 0 0 false
    ⟨sqX, sqC, []⟩ (by decide) (by decide)

/-- C5 counterexample: on the non-Delaunay input `(ndX, ndC)`,
`nonlinear_optimization_uniform` with `max_num_steps = 0` (zero accepted
steps) succeeds but returns altered cells — the unconditional final
flip-until-Delaunay pass re-pairs the two triangles — refuting that all three
entry points return the input unchanged. -/
theorem odt_c5_counterexample :
    (nonlinear_optimization_uniform [] true ndX ndC 0 0 false).map
        (fun r => (r.points, r.cells)) =
      some (ndX, [(0, 1, 2), (3, 2, 1)]) ∧
    ([(0, 1, 2), (3, 2, 1)] : List Cell) ≠ ndC := by
  constructor
  · decide
  · decide

/-- C5 (amended): with `max_num_steps = 0`, the two fixed-point entry points
return the input (points, cells) unchanged, and `nonlinear_optimization_uniform`
returns the input points unchanged — its cells are also unchanged provided
the input triangulation admits no Delaunay flip (the final flip pass runs
unconditionally, so a non-Delaunay input comes back re-paired). -/
theorem odt_c5_amended (points : List Pt) (cells : List Cell) (tol : ℚ)
    (accepted : List (List ℚ)) (success hascb : Bool) (r : OptRun)
    (hacc : accepted.length ≤ 0)
    (hr : nonlinear_optimization_uniform accepted success points cells tol 0 hascb
      = some r) :
    fixed_point_uniform points cells tol 0 = (points, cells) ∧
    fixed_point_density_preserving points cells tol 0 = (points, cells) ∧
    r.points = points ∧
    (flipStep points cells = none → r.cells = cells) := by
  have hacc0 : accepted = [] := List.length_eq_zero.mp (Nat.le_zero.mp hacc)
  subst hacc0
  have hr2 := nonlinear_some_elim [] success points cells tol 0 hascb r hr
  have hfc : finalCoords hascb [] points cells = points := by
    show writeInterior cells points (unflatten (x0Vec points cells)) = points
    exact writeInterior_self cells points
  refine ⟨rfl, rfl, ?_, ?_⟩
  · rw [hr2]
    exact hfc
  · intro hflip
    rw [hr2]
    show finalCells hascb [] points cells = cells
    unfold finalCells
    rw [hfc]
    exact flip_until_delaunay_of_none points cells hflip

/-- Witness for the amended C5 at the (strictly Delaunay) square mesh. -/
theorem odt_c5_amended_witness :
    fixed_point_uniform sqX sqC 0 0 = (sqX, sqC) ∧
    fixed_point_density_preserving sqX sqC 0 0 = (sqX, sqC) ∧
    (⟨sqX, sqC, []⟩ : OptRun).points = sqX ∧
    (flipStep sqX sqC = none → (⟨sqX, sqC, []⟩ : OptRun).cells = sqC) :=
  odt_c5_amended sqX sqC 0 [] true false ⟨sqX, sqC, []⟩ (by decide) (by decide)

/-- C6: boundary-node coordinates are unchanged between input and output for
any run of either Relocator variant and of the Optimizer, with any number of
iterations / accepted steps: every coordinate write targets only the nodes
selected by `mesh.is_interior_node`, and the interior mask is preserved by
the Delaunay flips in between. -/
theorem odt_c6_boundary_fixed (points : List Pt) (cells : List Cell) (tol : ℚ)
    (cap : Nat) (accepted : List (List ℚ)) (success hascb : Bool) (r : OptRun)
    (i : Nat) (d : Pt)
    (hi : is_interior_node cells i = false)
    (hr : nonlinear_optimization_uniform accepted success points cells tol cap hascb
      = some r) :
    (fixed_point_uniform points cells tol cap).1.getD i d = points.getD i d ∧
    (fixed_point_density_preserving points cells tol cap).1.getD i d = points.getD i d ∧
    r.points.getD i d = points.getD i d := by
  refine ⟨?_, ?_, ?_⟩
  · exact runner_boundary_getD getNewPointsUniform tol i d cap ⟨points, cells⟩ hi
  · exact runner_boundary_getD getNewPointsDensityPreserving tol i d cap ⟨points, cells⟩ hi
  · have hrr := nonlinear_some_elim accepted success points cells tol cap hascb r hr
    have hinit : is_interior_node (initState hascb points cells).cells i = false := hi
    obtain ⟨h1, h2⟩ :=
      runAccepted_boundary hascb i d accepted (initState hascb points cells) hinit
    rw [hrr]
    show (finalCoords hascb accepted points cells).getD i d = points.getD i d
    unfold finalCoords
    rw [writeInterior_getD _ _ _ i d h1]
    exact h2

/-- Witness for C6: the first corner of the square mesh stays at the origin
through one fixed-point step and an optimizer run with one accepted step. -/
theorem odt_c6_boundary_fixed_witness :
    (fixed_point_uniform sqX sqC 0 1).1.getD 0 (0, 0) = sqX.getD 0 (0, 0) ∧
    (fixed_point_density_preserving sqX sqC 0 1).1.getD 0 (0, 0) = sqX.getD 0 (0, 0) ∧
    (⟨sqX, sqC, [(0, sqX, sqC), (1, sqX, sqC)]⟩ : OptRun).points.getD 0 (0, 0) =
      sqX.getD 0 (0, 0) :=
  odt_c6_boundary_fixed sqX sqC 0 1 [[1, 1]] true true
    ⟨sqX, sqC, [(0, sqX, sqC), (1, sqX, sqC)]⟩ 0 (0, 0) (by decide) (by decide)

/-- C9: `energy`'s `uniform_density` parameter defaults to `False`
(inverse-cell-volume weighting); `nonlinear_optimization_uniform`'s printed
before/after statistics therefore report the non-uniform-density energy,
while its optimization objective `f` evaluates the energy with
`uniform_density=True`. -/
theorem odt_c9_density_defaults (m : Mesh) (X : List Pt) (cells : List Cell)
    (x : List ℚ) :
    energy m = energy m false ∧
    printedEnergyBefore X cells = energy ⟨X, cells⟩ false ∧
    printedEnergyAfter X cells = energy ⟨X, cells⟩ false ∧
    objF X cells x = energy ⟨writeInterior cells X (unflatten x), cells⟩ true :=
  ⟨rfl, rfl, rfl, rfl⟩
